import Mathlib

/-!
Shallow embedding of the pipeline driver in `src/main.py` (the `go` function
decorated with `hydra.main`, together with the module-level `_steps` catalog).

Modelling choices, each traceable to a line of the source:

* `_steps` is the module-level canonical stage list (main.py lines 12-19).
* A run configuration is the fragment of the hydra config tree that `go`
  actually reads; scalar values that the driver merely forwards to a stage
  (prices, thresholds, seeds, ...) are opaque `Val`s, since the driver never
  computes with them.
* `activeSteps` is line 33: `steps_par.split(",") if steps_par != "all" else _steps`.
  Python's `str.split(",")` and Lean's `String.splitOn ","` agree on every
  input (both return `[""]` on the empty string and keep empty fields).
* Each of the six guarded blocks (lines 38-124) resolves one invocation:
  a subprocess command for `download`, an `mlflow.run(uri, "main", parameters)`
  for the rest.  `mkInv` records, per stage, the uri / entry point / flat
  parameter mapping exactly as built in the source.  The `download` block's
  command-line flags are recorded as the parameter mapping of that invocation.
* `hydra.utils.get_original_cwd()` is the directory hydra was launched from
  (`origCwd`); `os.path.abspath` resolves against the process working
  directory at run time (`runCwd`), which under `hydra.main` is the hydra
  output directory.  The source never calls `os.chdir`, so both are constant
  through the run and are distinct parameters of the model.
* The filesystem is a flat map from path to content plus a set of directory
  paths; `tempfile.TemporaryDirectory()` (line 36) creates a directory on
  entry and removes the directory and everything under it on every exit of
  the `with` block, normal or exceptional - which is exactly how Python's
  context manager behaves when an exception propagates out of the body.
* A failing invocation (`subprocess.run(..., check=True)` raising
  `CalledProcessError`, or `mlflow.run` raising `ExecutionException`) aborts
  the run: the exception propagates through the remaining blocks, so no later
  stage is invoked.  The outcome of each invocation is an oracle
  `fails : String → Bool` indexed by stage name.
* `json.dump(dict(...), fp)` on a flat string-keyed mapping is modelled by
  `jsonObject`, which prints with Python's default separators; string escaping
  is elided because the values serialized here contain no special characters.
-/

/-- Opaque scalar configuration value forwarded to a stage: the driver never
inspects these beyond passing them along. -/
inductive Val where
  | str : String → Val
  | num : Int → Val
deriving DecidableEq

/-- The fragment of the hydra configuration tree read by `go` in main.py:
sections `main`, `etl`, `data_check`, `modeling`. -/
structure Config where
  project_name : String
  experiment_name : String
  steps : String
  components_repository : String
  etl_sample : String
  etl_min_price : Val
  etl_max_price : Val
  data_check_kl_threshold : Val
  data_check_min_price : Val
  data_check_max_price : Val
  modeling_test_size : Val
  modeling_random_seed : Val
  modeling_stratify_by : Val
  modeling_val_size : Val
  modeling_max_tfidf_features : Val
  modeling_random_forest : List (String × Val)
deriving DecidableEq

/-- The canonical stage catalog, main.py lines 12-19. -/
def _steps : List String :=
  ["download",
   "basic_cleaning",
   "data_check",
   "data_split",
   "train_random_forest",
   "test_regression_model"]

/-- Python's `str.split(sep)` with an explicit one-character separator: split
at every occurrence of the separator, keeping empty fields, and return `[""]`
on the empty string.  `List.splitOn` over the character list has exactly this
behavior. -/
def pySplit (s : String) (sep : Char) : List String :=
  (s.toList.splitOn sep).map (fun cs => String.mk cs)

/-- Line 33: `active_steps = steps_par.split(",") if steps_par != "all" else _steps`. -/
def activeSteps (steps_par : String) : List String :=
  if steps_par ≠ "all" then pySplit steps_par ',' else _steps

/-- One invocation of a stage as an opaque unit of work: which guarded block
emitted it, the uri (local path, script path, or remote component reference),
the entry point, and the flat parameter mapping. -/
structure Invocation where
  stage : String
  uri : String
  entryPoint : String
  parameters : List (String × Val)
deriving DecidableEq

/-- Value of a parameter in an invocation's flat mapping (first occurrence of
the key, as in a Python dict literal with distinct keys). -/
def lookupParam (inv : Invocation) (k : String) : Option Val :=
  (inv.parameters.find? (fun kv => kv.1 == k)).map (fun kv => kv.2)

/-- Serialization of a `Val` as by Python's `json.dump` (values appearing here
contain no characters needing escapes). -/
def Val.toJson : Val → String
  | .str s => "\"" ++ s ++ "\""
  | .num n => toString n

/-- Serialization of a flat string-keyed mapping as by `json.dump(dict(...))`
with default separators. -/
def jsonObject (kvs : List (String × Val)) : String :=
  "\x7b" ++ String.intercalate ", " (kvs.map (fun kv => "\"" ++ kv.1 ++ "\": " ++ kv.2.toJson)) ++ "\x7d"

/-- Flat filesystem model: files as a path-to-content association list
(later entries shadowed by `writeFile`), plus the set of directory paths. -/
structure FS where
  files : List (String × String)
  dirs : List String
deriving DecidableEq

/-- `open(p, "w+")` followed by writing `c`: replaces any previous content. -/
def writeFile (p c : String) (fs : FS) : FS :=
  { fs with files := (p, c) :: fs.files.filter (fun kv => kv.1 ≠ p) }

/-- Path `p` lies strictly inside directory `d`. -/
def isUnder (d p : String) : Bool :=
  (d ++ "/").toList.isPrefixOf p.toList

/-- `shutil`-style recursive removal of directory `d`, as performed by
`TemporaryDirectory` cleanup: drops `d` itself and everything under it. -/
def removeTree (d : String) (fs : FS) : FS :=
  { files := fs.files.filter (fun kv => !(isUnder d kv.1)),
    dirs := fs.dirs.filter (fun x => !(x == d) && !(isUnder d x)) }

/-- Per-stage invocation resolution: uri, entry point and parameter mapping,
from the six guarded blocks of main.py lines 38-124.  Resolution reads only
the configuration, the original cwd (`hydra.utils.get_original_cwd()`) and the
process cwd (through `os.path.abspath("rf_config.json")`). -/
def resolveStage (cfg : Config) (origCwd runCwd : String) : String → String × String × List (String × Val)
  | "download" =>
      ("components/get_data/manual.py", "python",
       [("--sample", .str cfg.etl_sample),
        ("--artifact_name", .str "sample.csv"),
        ("--artifact_type", .str "raw_data"),
        ("--artifact_description", .str "Raw file as downloaded")])
  | "basic_cleaning" =>
      (origCwd ++ "/src/basic_cleaning", "main",
       [("input_artifact", .str "sample.csv:latest"),
        ("output_artifact", .str "clean_sample.csv"),
        ("output_type", .str "clean_sample"),
        ("output_description", .str "Data with outliers and null values removed"),
        ("min_price", cfg.etl_min_price),
        ("max_price", cfg.etl_max_price)])
  | "data_check" =>
      (origCwd ++ "/src/data_check", "main",
       [("csv", .str "clean_sample.csv:latest"),
        ("ref", .str "clean_sample.csv:reference"),
        ("kl_threshold", cfg.data_check_kl_threshold),
        ("min_price", cfg.data_check_min_price),
        ("max_price", cfg.data_check_max_price)])
  | "data_split" =>
      (cfg.components_repository ++ "/train_val_test_split", "main",
       [("input", .str "clean_sample.csv:latest"),
        ("test_size", cfg.modeling_test_size),
        ("random_seed", cfg.modeling_random_seed),
        ("stratify_by", cfg.modeling_stratify_by)])
  | "train_random_forest" =>
      (origCwd ++ "/src/train_random_forest", "main",
       [("trainval_artifact", .str "trainval_data.csv:latest"),
        ("val_size", cfg.modeling_val_size),
        ("random_seed", cfg.modeling_random_seed),
        ("stratify_by", cfg.modeling_stratify_by),
        ("rf_config", .str (runCwd ++ "/rf_config.json")),
        ("max_tfidf_features", cfg.modeling_max_tfidf_features),
        ("output_artifact", .str "random_forest_export")])
  | "test_regression_model" =>
      (cfg.components_repository ++ "/test_regression_model", "main",
       [("mlflow_model", .str "random_forest_export:prod"),
        ("test_dataset", .str "test_data.csv:latest")])
  | _ => ("", "", [])

/-- The invocation emitted by the block for stage `name`. -/
def mkInv (cfg : Config) (origCwd runCwd : String) (name : String) : Invocation :=
  let t := resolveStage cfg origCwd runCwd name
  { stage := name, uri := t.1, entryPoint := t.2.1, parameters := t.2.2 }

/-- Filesystem side effect of the block for stage `name`, performed before the
invocation: only `train_random_forest` writes a file, `rf_config.json` at
`os.path.abspath("rf_config.json")` (main.py lines 98-100), holding the JSON
serialization of `modeling.random_forest`. -/
def fsEffect (cfg : Config) (runCwd : String) (name : String) (fs : FS) : FS :=
  if name = "train_random_forest" then
    writeFile (runCwd ++ "/rf_config.json") (jsonObject cfg.modeling_random_forest) fs
  else fs

/-- One guarded block's work when its stage is active: resolve the invocation
and perform the pre-invocation filesystem effect. -/
def stageBlock (cfg : Config) (origCwd runCwd : String) (name : String) (fs : FS) : Invocation × FS :=
  (mkInv cfg origCwd runCwd name, fsEffect cfg runCwd name fs)

/-- Outcome of the body of the `with` block: either every active stage was
invoked and succeeded (carrying the invocation trace), or some invocation
raised, aborting the run (carrying the failing stage and the trace up to and
including the failed invocation). -/
inductive RunResult where
  | success : List Invocation → RunResult
  | failure : String → List Invocation → RunResult
deriving DecidableEq

/-- The invocation trace of a run outcome. -/
def RunResult.invocations : RunResult → List Invocation
  | .success invs => invs
  | .failure _ invs => invs

/-- The stage a failure is attributed to, if any. -/
def RunResult.failedStage : RunResult → Option String
  | .success _ => none
  | .failure b _ => some b

/-- Whether the run body completed normally. -/
def RunResult.isSuccess : RunResult → Bool
  | .success _ => true
  | .failure _ _ => false

/-- Record one more (earlier) invocation in front of an outcome's trace. -/
def RunResult.prepend (inv : Invocation) : RunResult → RunResult
  | .success invs => .success (inv :: invs)
  | .failure b invs => .failure b (inv :: invs)

/-- The sequence of guarded blocks, main.py lines 38-124: for each block name
in the given order, if the name is in `active_steps` the block runs (side
effect, then invocation); a failing invocation raises, skipping everything
after it.  `go` applies this to `_steps`, the order in which the six `if`
blocks appear in the source. -/
def runBlocks (cfg : Config) (origCwd runCwd : String) (fails : String → Bool) :
    List String → FS → RunResult × FS
  | [], fs => (RunResult.success [], fs)
  | name :: rest, fs =>
    if name ∈ activeSteps cfg.steps then
      let b := stageBlock cfg origCwd runCwd name fs
      if fails name then (RunResult.failure name [b.1], b.2)
      else
        let p := runBlocks cfg origCwd runCwd fails rest b.2
        (RunResult.prepend b.1 p.1, p.2)
    else runBlocks cfg origCwd runCwd fails rest fs

/-- Observable outcome of one call of `go`: the two environment variables set
at entry, the run outcome, and the filesystem after the `with` block exits. -/
structure GoResult where
  envProject : String
  envRunGroup : String
  result : RunResult
  fs : FS
deriving DecidableEq

/-- The driver `go` of main.py: set `WANDB_PROJECT` and `WANDB_RUN_GROUP`,
compute `active_steps`, then inside `with tempfile.TemporaryDirectory()` run
the six guarded blocks in source order; the temporary directory is removed
when the `with` block exits, whether the body returned or raised. -/
def go (cfg : Config) (origCwd runCwd tmpDir : String) (fails : String → Bool) (fs0 : FS) : GoResult :=
  let fs1 : FS := { fs0 with dirs := tmpDir :: fs0.dirs }
  let p := runBlocks cfg origCwd runCwd fails _steps fs1
  { envProject := cfg.project_name,
    envRunGroup := cfg.experiment_name,
    result := p.1,
    fs := removeTree tmpDir p.2 }

/-! ### Basic lemmas about the trace bookkeeping -/

theorem mkInv_stage (cfg : Config) (o r n : String) : (mkInv cfg o r n).stage = n := rfl

theorem stages_map_mkInv (cfg : Config) (o r : String) (l : List String) :
    (l.map (mkInv cfg o r)).map (fun i => i.stage) = l := by
  simp [List.map_map, Function.comp_def, mkInv_stage]

theorem invocations_prepend (inv : Invocation) (res : RunResult) :
    (RunResult.prepend inv res).invocations = inv :: res.invocations := by
  cases res <;> rfl

theorem failedStage_prepend (inv : Invocation) (res : RunResult) :
    (RunResult.prepend inv res).failedStage = res.failedStage := by
  cases res <;> rfl

theorem isSuccess_prepend (inv : Invocation) (res : RunResult) :
    (RunResult.prepend inv res).isSuccess = res.isSuccess := by
  cases res <;> rfl

/-! ### Shape of the run trace -/

/-- When no active stage's invocation fails, the run body succeeds and the
trace is the canonical-order filter of the block list by membership in
`active_steps`, each block contributing its resolved invocation. -/
theorem runBlocks_success (cfg : Config) (o r : String) (fails : String → Bool)
    (names : List String) (fs : FS)
    (h : ∀ n ∈ names, n ∈ activeSteps cfg.steps → fails n = false) :
    (runBlocks cfg o r fails names fs).1 =
      RunResult.success
        ((names.filter (fun n => n ∈ activeSteps cfg.steps)).map (mkInv cfg o r)) := by
  induction names generalizing fs with
  | nil => rfl
  | cons name rest ih =>
    by_cases hm : name ∈ activeSteps cfg.steps
    · have hf : fails name = false := h name (List.mem_cons_self name rest) hm
      have ihr := ih (fsEffect cfg r name fs) (fun n hn => h n (List.mem_cons_of_mem _ hn))
      simp [runBlocks, hm, hf, stageBlock, ihr, RunResult.prepend]
    · have ihr := ih fs (fun n hn => h n (List.mem_cons_of_mem _ hn))
      simp [runBlocks, hm, ihr]

/-- If every active block before `b` succeeds, `b` is active, and invoking `b`
fails, the run aborts at `b`: the outcome is a failure attributed to `b` and
the trace is the successful invocations before `b` followed by `b`'s own. -/
theorem runBlocks_failure (cfg : Config) (o r : String) (fails : String → Bool)
    (l₁ : List String) (b : String) (l₂ : List String) (fs : FS)
    (h1 : ∀ a ∈ l₁, a ∈ activeSteps cfg.steps → fails a = false)
    (hb : b ∈ activeSteps cfg.steps) (hfb : fails b = true) :
    (runBlocks cfg o r fails (l₁ ++ b :: l₂) fs).1 =
      RunResult.failure b
        (((l₁.filter (fun n => n ∈ activeSteps cfg.steps)).map (mkInv cfg o r))
          ++ [mkInv cfg o r b]) := by
  induction l₁ generalizing fs with
  | nil => simp [runBlocks, hb, hfb, stageBlock]
  | cons a rest ih =>
    by_cases hm : a ∈ activeSteps cfg.steps
    · have hf : fails a = false := h1 a (List.mem_cons_self a rest) hm
      have ihr := ih (fsEffect cfg r a fs) (fun n hn => h1 n (List.mem_cons_of_mem _ hn))
      simp [runBlocks, hm, hf, stageBlock, ihr, RunResult.prepend]
    · have ihr := ih fs (fun n hn => h1 n (List.mem_cons_of_mem _ hn))
      simp [runBlocks, hm, ihr]

/-- Whatever the failure oracle, the stages of the trace form a sublist of the
block-name list: blocks run in the source's order, each at most once. -/
theorem runBlocks_stages_sublist (cfg : Config) (o r : String) (fails : String → Bool)
    (names : List String) (fs : FS) :
    (((runBlocks cfg o r fails names fs).1.invocations.map (fun i => i.stage))).Sublist names := by
  induction names generalizing fs with
  | nil => simp [runBlocks, RunResult.invocations]
  | cons name rest ih =>
    by_cases hm : name ∈ activeSteps cfg.steps
    · cases hf : fails name with
      | false =>
        have := ih (fsEffect cfg r name fs)
        simpa [runBlocks, hm, hf, stageBlock, invocations_prepend, mkInv_stage]
          using this.cons₂ name
      | true =>
        simp [runBlocks, hm, hf, stageBlock, RunResult.invocations, mkInv_stage]
    · exact List.Sublist.cons name (by simpa [runBlocks, hm] using ih fs)

/-! ### Concrete sample configuration, used by witnesses -/

/-- A concrete run configuration with the shape of the repository's
`config.yaml`, used to instantiate theorems at concrete inputs. -/
def cfg0 : Config :=
  { project_name := "nyc_airbnb",
    experiment_name := "development",
    steps := "all",
    components_repository := "https://github.com/udacity/components",
    etl_sample := "sample1.csv",
    etl_min_price := .num 10,
    etl_max_price := .num 350,
    data_check_kl_threshold := .str "0.2",
    data_check_min_price := .num 10,
    data_check_max_price := .num 350,
    modeling_test_size := .str "0.2",
    modeling_random_seed := .num 42,
    modeling_stratify_by := .str "neighbourhood_group",
    modeling_val_size := .str "0.2",
    modeling_max_tfidf_features := .num 5,
    modeling_random_forest := [("n_estimators", .num 100), ("max_depth", .num 15)] }

/-! ### Claims -/

/-- C3: for the directive meaning "everything" (the literal `"all"`), the
Stage Selector's output is the full canonical list of all six stages, in
canonical order. -/
theorem selector_all_gives_full_canonical_list :
    activeSteps "all" =
      ["download", "basic_cleaning", "data_check", "data_split",
       "train_random_forest", "test_regression_model"] ∧
    activeSteps "all" = _steps := by
  constructor <;> rfl

/-- C10: each canonical stage is invoked at most once per run, for every
directive, configuration and failure behavior: the trace's stage names are
free of duplicates, because each canonical stage has a single guarded block
performing one membership test. -/
theorem each_stage_invoked_at_most_once (cfg : Config) (o r tmp : String)
    (fails : String → Bool) (fs0 : FS) :
    ((go cfg o r tmp fails fs0).result.invocations.map (fun i => i.stage)).Nodup := by
  have hsub := runBlocks_stages_sublist cfg o r fails _steps { fs0 with dirs := tmp :: fs0.dirs }
  have hnd : _steps.Nodup := by decide
  exact List.Nodup.sublist hsub hnd

/-- C5: on every exit path (success of all selected stages or an invocation
failure aborting the run), the Scratch Workspace directory created at run
start no longer exists after `go` returns: it is not among the remaining
directories and no remaining file lies under it. -/
theorem workspace_removed_on_every_exit (cfg : Config) (o r tmp : String)
    (fails : String → Bool) (fs0 : FS) :
    tmp ∉ (go cfg o r tmp fails fs0).fs.dirs ∧
    ∀ p c, (p, c) ∈ (go cfg o r tmp fails fs0).fs.files → isUnder tmp p = false := by
  constructor
  · intro hmem
    have h := List.mem_filter.mp hmem
    simp at h
  · intro p c hmem
    have h := List.mem_filter.mp hmem
    simpa using h.2

/-- C8: parameter resolution is stateless: the invocation a block resolves
does not depend on the evolving filesystem state, and resolving the same
stage a second time (even after the block's own side effect) yields an
identical invocation - uri, entry point and parameter set. -/
theorem parameter_resolution_idempotent (cfg : Config) (o r name : String) (fs fs' : FS) :
    (stageBlock cfg o r name fs).1 = (stageBlock cfg o r name fs').1 ∧
    (stageBlock cfg o r name ((stageBlock cfg o r name fs).2)).1
      = (stageBlock cfg o r name fs).1 := by
  exact ⟨rfl, rfl⟩

/-- C1: fail-fast.  Decompose the canonical block list as `l₁ ++ b :: l₂`.
If every active stage in `l₁` succeeds, `b` is selected and invoking `b`
fails, then the run terminates reporting a failure attributable to `b`, and
no stage after `b` (no member of `l₂`) is ever invoked: there is no retry and
no continuation to later stages. -/
theorem fail_fast_aborts_run (cfg : Config) (o r tmp : String) (fails : String → Bool)
    (fs0 : FS) (l₁ l₂ : List String) (b : String)
    (hsplit : _steps = l₁ ++ b :: l₂)
    (hprev : ∀ a ∈ l₁, a ∈ activeSteps cfg.steps → fails a = false)
    (hb : b ∈ activeSteps cfg.steps) (hfb : fails b = true) :
    (go cfg o r tmp fails fs0).result.failedStage = some b ∧
    ∀ c ∈ l₂, c ∉ (go cfg o r tmp fails fs0).result.invocations.map (fun i => i.stage) := by
  have hgo : (go cfg o r tmp fails fs0).result =
      (runBlocks cfg o r fails _steps { fs0 with dirs := tmp :: fs0.dirs }).1 := rfl
  rw [hgo, hsplit, runBlocks_failure cfg o r fails l₁ b l₂ _ hprev hb hfb]
  refine ⟨rfl, ?_⟩
  intro c hc hcm
  have hnd : (l₁ ++ b :: l₂).Nodup := hsplit ▸ (by decide : _steps.Nodup)
  obtain ⟨hn1, hn2, hdisj⟩ := List.nodup_append.mp hnd
  have hcl1 : c ∉ l₁ := fun hcl => hdisj hcl (List.mem_cons_of_mem b hc)
  have hcb : c ≠ b := fun hcb => (List.nodup_cons.mp hn2).1 (hcb ▸ hc)
  simp only [RunResult.invocations, List.map_append, stages_map_mkInv] at hcm
  rcases List.mem_append.mp hcm with hL | hR
  · exact hcl1 (List.mem_of_mem_filter hL)
  · exact hcb (by simpa [mkInv_stage] using hR)

/-- Witness for C1: with the full pipeline selected and `data_check` failing,
the run fails attributed to `data_check` and `data_split` is never invoked. -/
theorem fail_fast_aborts_run_witness :
    (go cfg0 "/home/user/proj" "/home/user/proj/outputs/run1" "/tmp/tmpw"
        (fun s => s == "data_check") ⟨[], []⟩).result.failedStage = some "data_check" ∧
    "data_split" ∉ (go cfg0 "/home/user/proj" "/home/user/proj/outputs/run1" "/tmp/tmpw"
        (fun s => s == "data_check") ⟨[], []⟩).result.invocations.map (fun i => i.stage) := by
  have H := fail_fast_aborts_run cfg0 "/home/user/proj" "/home/user/proj/outputs/run1"
    "/tmp/tmpw" (fun s => s == "data_check") ⟨[], []⟩
    ["download", "basic_cleaning"] ["data_split", "train_random_forest", "test_regression_model"]
    "data_check" (by decide) (by decide) (by decide) (by decide)
  exact ⟨H.1, H.2 "data_split" (by decide)⟩

/-- C4: for a valid subset directive (every comma-separated name canonical)
and no invocation failure, the executed stages are exactly those named, and
they execute in canonical declared order - the trace equals the canonical
list filtered by membership in the user's set, its membership agrees with the
directive's, and it is a sublist of the canonical order, whatever order the
user listed the names in. -/
theorem subset_directive_runs_in_canonical_order (cfg : Config) (o r tmp : String)
    (fails : String → Bool) (fs0 : FS)
    (hne : cfg.steps ≠ "all")
    (hvalid : ∀ s ∈ pySplit cfg.steps ',', s ∈ _steps)
    (hok : ∀ n, fails n = false) :
    (go cfg o r tmp fails fs0).result.invocations.map (fun i => i.stage)
        = _steps.filter (fun s => s ∈ pySplit cfg.steps ',') ∧
    (∀ s, s ∈ (go cfg o r tmp fails fs0).result.invocations.map (fun i => i.stage)
        ↔ s ∈ pySplit cfg.steps ',') ∧
    ((go cfg o r tmp fails fs0).result.invocations.map (fun i => i.stage)).Sublist _steps := by
  have hact : activeSteps cfg.steps = pySplit cfg.steps ',' := by
    simp [activeSteps, hne]
  have hgo : (go cfg o r tmp fails fs0).result =
      (runBlocks cfg o r fails _steps { fs0 with dirs := tmp :: fs0.dirs }).1 := rfl
  have hres := runBlocks_success cfg o r fails _steps { fs0 with dirs := tmp :: fs0.dirs }
    (fun n _ _ => hok n)
  rw [hact] at hres
  have hexe : (go cfg o r tmp fails fs0).result.invocations.map (fun i => i.stage)
      = _steps.filter (fun s => s ∈ pySplit cfg.steps ',') := by
    rw [hgo, hres]
    exact stages_map_mkInv cfg o r _
  refine ⟨hexe, ?_, ?_⟩
  · intro s
    rw [hexe]
    constructor
    · intro hs
      exact of_decide_eq_true (List.mem_filter.mp hs).2
    · intro hs
      exact List.mem_filter.mpr ⟨hvalid s hs, decide_eq_true hs⟩
  · rw [hexe]
    exact List.filter_sublist _

/-- Witness for C4: directive `"data_split,download"` yields the trace
`[download, data_split]`, canonical order, never the user's order. -/
theorem subset_directive_runs_in_canonical_order_witness :
    (go { cfg0 with steps := "data_split,download" } "/o" "/r" "/t"
        (fun _ => false) ⟨[], []⟩).result.invocations.map (fun i => i.stage)
      = ["download", "data_split"] := by
  have H := subset_directive_runs_in_canonical_order
    { cfg0 with steps := "data_split,download" } "/o" "/r" "/t"
    (fun _ => false) ⟨[], []⟩ (by decide) (by decide) (fun n => rfl)
  rw [H.1]
  decide

/-- C2, counterexample: the directive `"bogus,download"` names a stage outside
the canonical catalog, yet selection does not fail with a configuration error
and a stage is invoked anyway: the run completes normally and `download` runs.
The unrecognized name is silently ignored, not rejected. -/
theorem unknown_stage_name_not_rejected :
    (go { cfg0 with steps := "bogus,download" } "/o" "/r" "/t"
        (fun _ => false) ⟨[], []⟩).result.isSuccess = true ∧
    (go { cfg0 with steps := "bogus,download" } "/o" "/r" "/t"
        (fun _ => false) ⟨[], []⟩).result.invocations.map (fun i => i.stage)
      = ["download"] := by
  constructor <;> decide

/-- C2, amended: for every subset directive and failure-free run, no
configuration error is raised (the run completes normally); each
comma-separated token that names a canonical stage is executed, and each
token outside the canonical catalog is silently ignored - it never matches a
guarded block, so nothing is executed for it. -/
theorem unknown_stage_names_silently_ignored (cfg : Config) (o r tmp : String)
    (fails : String → Bool) (fs0 : FS)
    (hne : cfg.steps ≠ "all") (hok : ∀ n, fails n = false) :
    (go cfg o r tmp fails fs0).result.isSuccess = true ∧
    ∀ t ∈ pySplit cfg.steps ',',
      (t ∈ _steps →
        t ∈ (go cfg o r tmp fails fs0).result.invocations.map (fun i => i.stage)) ∧
      (t ∉ _steps →
        t ∉ (go cfg o r tmp fails fs0).result.invocations.map (fun i => i.stage)) := by
  have hact : activeSteps cfg.steps = pySplit cfg.steps ',' := by
    simp [activeSteps, hne]
  have hgo : (go cfg o r tmp fails fs0).result =
      (runBlocks cfg o r fails _steps { fs0 with dirs := tmp :: fs0.dirs }).1 := rfl
  have hres := runBlocks_success cfg o r fails _steps { fs0 with dirs := tmp :: fs0.dirs }
    (fun n _ _ => hok n)
  rw [hact] at hres
  have hexe : (go cfg o r tmp fails fs0).result.invocations.map (fun i => i.stage)
      = _steps.filter (fun s => s ∈ pySplit cfg.steps ',') := by
    rw [hgo, hres]
    exact stages_map_mkInv cfg o r _
  constructor
  · rw [hgo, hres]
    rfl
  · intro t ht
    constructor
    · intro hcanon
      rw [hexe]
      exact List.mem_filter.mpr ⟨hcanon, decide_eq_true ht⟩
    · intro hcanon hmem
      rw [hexe] at hmem
      exact hcanon (List.mem_of_mem_filter hmem)

/-- Witness for the amended C2: directive `"bogus,download"` - the run
succeeds and no block ever runs for the unknown token `"bogus"`. -/
theorem unknown_stage_names_silently_ignored_witness :
    (go { cfg0 with steps := "bogus,download" } "/orig" "/run" "/tmpd"
        (fun _ => false) ⟨[], []⟩).result.isSuccess = true ∧
    "bogus" ∉ (go { cfg0 with steps := "bogus,download" } "/orig" "/run" "/tmpd"
        (fun _ => false) ⟨[], []⟩).result.invocations.map (fun i => i.stage) := by
  have H := unknown_stage_names_silently_ignored
    { cfg0 with steps := "bogus,download" } "/orig" "/run" "/tmpd"
    (fun _ => false) ⟨[], []⟩ (by decide) (fun n => rfl)
  exact ⟨H.1, (H.2 "bogus" (by decide)).2 (by decide)⟩

/-- C9, counterexample: the full canonical list is not selected only for the
exact literal `"all"`: the directive explicitly naming all six stages is a
different string, yet the Selector's output equals the full canonical list. -/
theorem full_list_from_enumerating_directive :
    ("download,basic_cleaning,data_check,data_split,train_random_forest,test_regression_model"
        : String) ≠ "all" ∧
    activeSteps
      "download,basic_cleaning,data_check,data_split,train_random_forest,test_regression_model"
      = _steps := by
  constructor <;> decide

/-- C9, amended: the "everything" branch is taken only for the exact literal
`"all"`; any other directive is split on commas.  In a comma-separated
directive containing `"all"` as one element, the token `"all"` matches no
canonical stage: it is never executed, and exactly the canonically-named
elements run (a directive enumerating all six names also yields the full
list, so exactness of the literal is about the branch, not the output). -/
theorem all_as_list_element_matches_nothing (cfg : Config) (o r tmp : String)
    (fails : String → Bool) (fs0 : FS)
    (hne : cfg.steps ≠ "all") (hall : "all" ∈ pySplit cfg.steps ',')
    (hok : ∀ n, fails n = false) :
    "all" ∈ activeSteps cfg.steps ∧
    "all" ∉ (go cfg o r tmp fails fs0).result.invocations.map (fun i => i.stage) ∧
    (go cfg o r tmp fails fs0).result.invocations.map (fun i => i.stage)
      = _steps.filter (fun s => s ∈ pySplit cfg.steps ',') := by
  have hact : activeSteps cfg.steps = pySplit cfg.steps ',' := by
    simp [activeSteps, hne]
  have hgo : (go cfg o r tmp fails fs0).result =
      (runBlocks cfg o r fails _steps { fs0 with dirs := tmp :: fs0.dirs }).1 := rfl
  have hres := runBlocks_success cfg o r fails _steps { fs0 with dirs := tmp :: fs0.dirs }
    (fun n _ _ => hok n)
  rw [hact] at hres
  have hexe : (go cfg o r tmp fails fs0).result.invocations.map (fun i => i.stage)
      = _steps.filter (fun s => s ∈ pySplit cfg.steps ',') := by
    rw [hgo, hres]
    exact stages_map_mkInv cfg o r _
  refine ⟨hact.symm ▸ hall, ?_, hexe⟩
  rw [hexe]
  intro hmem
  have : ("all" : String) ∈ _steps := List.mem_of_mem_filter hmem
  exact absurd this (by decide)

/-- Witness for the amended C9: directive `"all,download"` runs only
`download`; the token `"all"` is never executed. -/
theorem all_as_list_element_matches_nothing_witness :
    "all" ∉ (go { cfg0 with steps := "all,download" } "/orig" "/run" "/tmpd"
        (fun _ => false) ⟨[], []⟩).result.invocations.map (fun i => i.stage) := by
  have H := all_as_list_element_matches_nothing
    { cfg0 with steps := "all,download" } "/orig" "/run" "/tmpd"
    (fun _ => false) ⟨[], []⟩ (by decide) (by decide) (fun n => rfl)
  exact H.2.1

/-- C7: for directive `"download,basic_cleaning"` with a valid configuration
(`etl.sample = "data.csv"`, `etl.min_price = 10`, `etl.max_price = 1000`) and
failure-free invocations, exactly two stages are invoked, `download` first and
`basic_cleaning` second; the first receives the configured sample name, the
second receives `input_artifact = "sample.csv:latest"` together with the
configured price bounds. -/
theorem download_cleaning_scenario (cfg : Config) (o r tmp : String)
    (fails : String → Bool) (fs0 : FS)
    (hsteps : cfg.steps = "download,basic_cleaning")
    (hsample : cfg.etl_sample = "data.csv")
    (hmin : cfg.etl_min_price = Val.num 10)
    (hmax : cfg.etl_max_price = Val.num 1000)
    (hok : ∀ n, fails n = false) :
    (go cfg o r tmp fails fs0).result.invocations.map (fun i => i.stage)
      = ["download", "basic_cleaning"] ∧
    (go cfg o r tmp fails fs0).result.invocations.map (fun i => lookupParam i "input_artifact")
      = [none, some (Val.str "sample.csv:latest")] ∧
    (go cfg o r tmp fails fs0).result.invocations.map (fun i => lookupParam i "--sample")
      = [some (Val.str "data.csv"), none] ∧
    (go cfg o r tmp fails fs0).result.invocations.map (fun i => lookupParam i "min_price")
      = [none, some (Val.num 10)] ∧
    (go cfg o r tmp fails fs0).result.invocations.map (fun i => lookupParam i "max_price")
      = [none, some (Val.num 1000)] := by
  have hact : activeSteps cfg.steps = ["download", "basic_cleaning"] := by
    rw [hsteps]
    decide
  have hgo : (go cfg o r tmp fails fs0).result =
      (runBlocks cfg o r fails _steps { fs0 with dirs := tmp :: fs0.dirs }).1 := rfl
  have hres := runBlocks_success cfg o r fails _steps { fs0 with dirs := tmp :: fs0.dirs }
    (fun n _ _ => hok n)
  rw [hact] at hres
  have hfilter : _steps.filter (fun n => n ∈ (["download", "basic_cleaning"] : List String))
      = ["download", "basic_cleaning"] := by decide
  rw [hfilter] at hres
  refine ⟨?_, ?_, ?_, ?_, ?_⟩ <;> rw [hgo, hres]
  · rfl
  · simp [RunResult.invocations, lookupParam, mkInv, resolveStage]
  · simp [RunResult.invocations, lookupParam, mkInv, resolveStage, hsample]
  · simp [RunResult.invocations, lookupParam, mkInv, resolveStage, hmin]
  · simp [RunResult.invocations, lookupParam, mkInv, resolveStage, hmax]

/-- The C7 scenario configuration: subset directive `download,basic_cleaning`
with the scenario's etl values. -/
def cfg7 : Config :=
  { cfg0 with
    steps := "download,basic_cleaning",
    etl_sample := "data.csv",
    etl_min_price := Val.num 10,
    etl_max_price := Val.num 1000 }

/-- Witness for C7: the scenario at a fully concrete configuration. -/
theorem download_cleaning_scenario_witness :
    (go cfg7 "/orig" "/run" "/tmpd" (fun _ => false) ⟨[], []⟩).result.invocations.map
        (fun i => i.stage)
      = ["download", "basic_cleaning"] ∧
    (go cfg7 "/orig" "/run" "/tmpd" (fun _ => false) ⟨[], []⟩).result.invocations.map
        (fun i => lookupParam i "input_artifact")
      = [none, some (Val.str "sample.csv:latest")] := by
  have H := download_cleaning_scenario cfg7 "/orig" "/run" "/tmpd"
    (fun _ => false) ⟨[], []⟩ rfl rfl rfl rfl (fun n => rfl)
  exact ⟨H.1, H.2.1⟩

/-- A configuration selecting only the training stage. -/
def cfg6 : Config :=
  { cfg0 with steps := "train_random_forest" }

/-- C6, evaluated at a concrete failing input: directive
`"train_random_forest"`, original cwd `/home/user/proj`, process working
directory `/home/user/proj/outputs/run1` (hydra's run directory), Scratch
Workspace `/tmp/tmpabc`.  The hyperparameter file is written before the stage
is invoked (it is present even when that invocation fails), its absolute path
is passed as the `rf_config` parameter, and its content is the JSON
serialization of `modeling.random_forest` - but the file lies at
`/home/user/proj/outputs/run1/rf_config.json`, which is not inside the
Scratch Workspace, and it survives workspace teardown: `os.path.abspath`
resolves against the process cwd, and the code never changes directory into
the `TemporaryDirectory`, despite its own `Move to a temporary directory`
comment. -/
theorem rf_config_file_outside_scratch_workspace :
    (go cfg6 "/home/user/proj" "/home/user/proj/outputs/run1" "/tmp/tmpabc"
        (fun _ => false) ⟨[], []⟩).result.invocations.map (fun i => i.stage)
      = ["train_random_forest"] ∧
    (go cfg6 "/home/user/proj" "/home/user/proj/outputs/run1" "/tmp/tmpabc"
        (fun _ => false) ⟨[], []⟩).result.invocations.map (fun i => lookupParam i "rf_config")
      = [some (Val.str "/home/user/proj/outputs/run1/rf_config.json")] ∧
    ("/home/user/proj/outputs/run1/rf_config.json",
        jsonObject cfg6.modeling_random_forest) ∈
      (go cfg6 "/home/user/proj" "/home/user/proj/outputs/run1" "/tmp/tmpabc"
        (fun _ => false) ⟨[], []⟩).fs.files ∧
    jsonObject cfg6.modeling_random_forest
      = "\x7b\"n_estimators\": 100, \"max_depth\": 15\x7d" ∧
    isUnder "/tmp/tmpabc" "/home/user/proj/outputs/run1/rf_config.json" = false ∧
    (go cfg6 "/home/user/proj" "/home/user/proj/outputs/run1" "/tmp/tmpabc"
        (fun s => s == "train_random_forest") ⟨[], []⟩).result.failedStage
      = some "train_random_forest" ∧
    ("/home/user/proj/outputs/run1/rf_config.json",
        jsonObject cfg6.modeling_random_forest) ∈
      (go cfg6 "/home/user/proj" "/home/user/proj/outputs/run1" "/tmp/tmpabc"
        (fun s => s == "train_random_forest") ⟨[], []⟩).fs.files := by
  refine ⟨?_, ?_, ?_, ?_, ?_, ?_, ?_⟩ <;> decide
